import Mathlib

/-!
Verification of the slice-based paginated fetch-and-translate pipeline of the
image-sitemap-proxy server (`server.js` and its variant revisions).

The JavaScript source is shallowly embedded: pure computations become Lean
functions on `List Char` / `List` values, JavaScript numbers arising from the
pagination arithmetic are modelled by `JSNum` (an integer or NaN), upstream
HTTP calls become oracle parameters (`Nat → Bool` failure oracles, translation
lookup functions `String → Option (List Translation)`, and a URL-parse oracle),
and a thrown exception becomes the `SliceResult.fail` constructor.
-/

namespace SitemapProxy

/-- JavaScript number restricted to the values that actually arise in the
pagination arithmetic of the server (`parseInt` results, `Math.max`,
`Math.min`, `-`, `*`): an integer or NaN. -/
inductive JSNum where
  | nan : JSNum
  | int : Int → JSNum
  deriving DecidableEq, Repr

/-- JavaScript `Math.max` on two numbers: NaN-propagating. -/
def jsMax : JSNum → JSNum → JSNum
  | JSNum.nan, _ => JSNum.nan
  | _, JSNum.nan => JSNum.nan
  | JSNum.int a, JSNum.int b => JSNum.int (max a b)

/-- JavaScript `Math.min` on two numbers: NaN-propagating. -/
def jsMin : JSNum → JSNum → JSNum
  | JSNum.nan, _ => JSNum.nan
  | _, JSNum.nan => JSNum.nan
  | JSNum.int a, JSNum.int b => JSNum.int (min a b)

/-- JavaScript subtraction on the numbers of the pagination pipeline. -/
def jsSub : JSNum → JSNum → JSNum
  | JSNum.nan, _ => JSNum.nan
  | _, JSNum.nan => JSNum.nan
  | JSNum.int a, JSNum.int b => JSNum.int (a - b)

/-- JavaScript multiplication on the numbers of the pagination pipeline. -/
def jsMul : JSNum → JSNum → JSNum
  | JSNum.nan, _ => JSNum.nan
  | _, JSNum.nan => JSNum.nan
  | JSNum.int a, JSNum.int b => JSNum.int (a * b)

/-- JavaScript `a < b` where `a` is a plain (Nat-valued) counter of the loop
and `b` is a request-derived number: any comparison with NaN is false. -/
def jsLtNat (a : Nat) : JSNum → Bool
  | JSNum.nan => false
  | JSNum.int b => (a : Int) < b

/-- JavaScript `a >= b` where `a` is a plain (Nat-valued) counter of the loop
and `b` is a request-derived number: any comparison with NaN is false. -/
def jsGeNat (a : Nat) : JSNum → Bool
  | JSNum.nan => false
  | JSNum.int b => b ≤ (a : Int)

/-- Numeric value of a digit run. -/
def digitsVal (cs : List Char) : Nat :=
  cs.foldl (fun acc c => acc * 10 + (c.toNat - '0'.toNat)) 0

/-- JavaScript `parseInt(s, 10)` on a character list: skip leading whitespace,
optional sign, then the longest leading digit run; NaN when there is none.
Trailing garbage is ignored, exactly as in JavaScript. -/
def parseIntChars (cs : List Char) : JSNum :=
  let cs := cs.dropWhile Char.isWhitespace
  match cs with
  | '-' :: rest =>
    let ds := rest.takeWhile Char.isDigit
    if ds.isEmpty then JSNum.nan else JSNum.int (-(digitsVal ds : Int))
  | '+' :: rest =>
    let ds := rest.takeWhile Char.isDigit
    if ds.isEmpty then JSNum.nan else JSNum.int (digitsVal ds)
  | rest =>
    let ds := rest.takeWhile Char.isDigit
    if ds.isEmpty then JSNum.nan else JSNum.int (digitsVal ds)

/-- JavaScript `parseInt(s, 10)` on a string. -/
def parseIntJS (s : String) : JSNum := parseIntChars s.data

/-- JavaScript `q || d` for an optional query-string value: an absent or empty
value is falsy and replaced by the default. -/
def jsOrStr (q : Option String) (d : String) : String :=
  match q with
  | some s => if s = "" then d else s
  | none => d

/-- The `/image.xml` handler's `page` computation:
`Math.max(parseInt(req.query.page || "1", 10), 1)`. -/
def pageParam (q : Option String) : JSNum :=
  jsMax (parseIntJS (jsOrStr q "1")) (JSNum.int 1)

/-- The `/image.xml` handler's `perPage` computation:
`Math.min(Math.max(parseInt(req.query.per_page || String(DEFAULT_PER_PAGE), 10), 1), MAX_URLS_PER_FEED)`.
The stringified `DEFAULT_PER_PAGE` and the `MAX_URLS_PER_FEED` cap are passed
in, since both come from the environment. -/
def perPageParam (defaultPerPage : String) (maxUrlsPerFeed : Int) (q : Option String) : JSNum :=
  jsMin (jsMax (parseIntJS (jsOrStr q defaultPerPage)) (JSNum.int 1)) (JSNum.int maxUrlsPerFeed)

/-- The `/image.xml` handler's `offset` computation: `(page - 1) * perPage`. -/
def offsetParam (page perPage : JSNum) : JSNum :=
  jsMul (jsSub page (JSNum.int 1)) perPage

/-- Result of a whole slice fetch: `fail` models the `throw new Error(...)`
taken when an upstream listing call returns a non-success status. -/
inductive SliceResult (α : Type) where
  | fail : SliceResult α
  | ok : List α → SliceResult α
  deriving DecidableEq, Repr

/-- The inner `for (const e of edges)` loop of `gqlPagedSlice`: skip nodes
while `skipped < offset`, then collect nodes while `out.length < take`,
then break. Comparisons use JavaScript semantics (`JSNum`). -/
def procEdges (offset take : JSNum) : List α → Nat → List α → Nat × List α
  | [], skipped, out => (skipped, out)
  | e :: es, skipped, out =>
    if jsLtNat skipped offset then procEdges offset take es (skipped + 1) out
    else if jsLtNat out.length take then procEdges offset take es skipped (out ++ [e])
    else (skipped, out)

/-- The `while (out.length < take)` loop of `gqlPagedSlice`.  The upstream
Admin API is modelled as the ideal cursor-paginated listing over `catalog`:
a request at cursor position `pos` with page size `first` returns
`(catalog.drop pos).take first` and `hasNextPage` exactly when entries remain
after the returned page.  `failAt pos` models the fetch at cursor position
`pos` responding with a non-success status, which the source turns into a
thrown error.  `fuel` is a structural-termination bound; the entry point
passes `catalog.length + 1`, which is proven sufficient. -/
def gqlLoop (catalog : List α) (failAt : Nat → Bool) (first : Nat) (offset take : JSNum) :
    Nat → Nat → Nat → List α → SliceResult α
  | 0, _, _, out => SliceResult.ok out
  | fuel + 1, pos, skipped, out =>
    if ¬ jsLtNat out.length take then SliceResult.ok out
    else if failAt pos then SliceResult.fail
    else
      let edges := (catalog.drop pos).take first
      if edges.length = 0 then SliceResult.ok out
      else
        let r := procEdges offset take edges skipped out
        if pos + edges.length < catalog.length ∧ ¬ jsGeNat r.2.length take then
          gqlLoop catalog failAt first offset take fuel (pos + edges.length) r.1 r.2
        else SliceResult.ok r.2

/-- `gqlPagedSlice({query, selectEdges, first, offset, take})` from server.js
(and the identical helper in the OAuth and hybrid revisions), run against the
ideal cursor-paginated listing over `catalog` with failure oracle `failAt`. -/
def gqlPagedSlice (catalog : List α) (failAt : Nat → Bool) (first : Nat)
    (offset take : JSNum) : SliceResult α :=
  gqlLoop catalog failAt first offset take (catalog.length + 1) 0 0 []

/-- Concatenation input for claim C2: the successive pages
`fetchSlice(0,k), fetchSlice(k,k), fetchSlice(2k,k), ...` of a fixed page
size `k`, on an always-successful upstream; a failed fetch contributes `[]`
(this branch is dead for the always-successful oracle used in the claim). -/
def pagesConcat (catalog : List α) (first k n : Nat) : List (List α) :=
  (List.range n).map (fun (i : Nat) =>
    match gqlPagedSlice catalog (fun _ => false) first (JSNum.int (↑(i * k))) (JSNum.int k) with
    | SliceResult.ok page => page
    | SliceResult.fail => [])

/-- `getProductsSlice(offset, limit)`: `gqlPagedSlice` at batch size 100. -/
def getProductsSlice (catalog : List α) (failAt : Nat → Bool) (offset take : JSNum) :
    SliceResult α :=
  gqlPagedSlice catalog failAt 100 offset take

/-- `getCollectionsSlice(offset, limit)`: `gqlPagedSlice` at batch size 200. -/
def getCollectionsSlice (catalog : List α) (failAt : Nat → Bool) (offset take : JSNum) :
    SliceResult α :=
  gqlPagedSlice catalog failAt 200 offset take

/-- `sfGetProductsSlice(offset, limit, acceptLanguage)` from the hybrid
server.js: fetch the first `pageSize + offset` products in one Storefront API
query, where `pageSize = Math.min(Math.max(limit, 50), 250)`, then
`nodes.slice(offset, offset + limit)`.  Offset and limit are the Nat values
produced by the (clamped, numeric) pagination pipeline. -/
def sfGetProductsSlice (catalog : List α) (offset limit : Nat) : List α :=
  let pageSize := min (max limit 50) 250
  let nodes := catalog.take (pageSize + offset)
  (nodes.drop offset).take limit

/-- The status code the `/image.xml` handler sends for a slice-fetch outcome:
the `catch` block turns the propagated error into a 500 response, a success
is rendered and sent as 200. -/
def handlerStatus : SliceResult α → Nat
  | SliceResult.fail => 500
  | SliceResult.ok _ => 200

/-! ### String utilities of the server (`x`, `stripPort`, URL helpers) -/

/-- JavaScript `a || b` on strings: the empty string is falsy. -/
def jsOr (a b : String) : String := if a = "" then b else a

/-- Global single-character replacement, the effect of
`String(s).replace(/c/g, rep)` for a single literal character `c`. -/
def replaceChar (c : Char) (rep : List Char) : List Char → List Char
  | [] => []
  | a :: as => (if a = c then rep else [a]) ++ replaceChar c rep as

/-- The escaping function `x` of the server:
`String(s).replace(/&/g,"&amp;").replace(/</g,"&lt;").replace(/>/g,"&gt;")`.
It replaces exactly the three characters `&`, `<`, `>`. -/
def x (s : String) : String :=
  String.mk (replaceChar '>' "&gt;".data
    (replaceChar '<' "&lt;".data
      (replaceChar '&' "&amp;".data s.data)))

/-- Character-level body of `stripPort`: `(host||"").replace(/:.+$/,"")`
removes everything from the first `:` that is followed by at least one
character; a trailing lone `:` is kept (the regex needs `.+`). -/
def stripPortChars : List Char → List Char
  | [] => []
  | c :: cs => if c = ':' ∧ cs ≠ [] then [] else c :: stripPortChars cs

/-- `stripPort(host)` from the server. -/
def stripPort (host : String) : String := String.mk (stripPortChars host.data)

/-- The effect of `url.replace(/^https?:\/\/[^/]+/, ...)` used by
`pageUrlForProduct`: when the string starts with `http://` or `https://`
followed by at least one non-`/` character, return the remainder after the
scheme and authority; otherwise no match. -/
def dropSchemeAuthority (cs : List Char) : Option (List Char) :=
  let afterScheme : Option (List Char) :=
    if "https://".data.isPrefixOf cs then some (cs.drop 8)
    else if "http://".data.isPrefixOf cs then some (cs.drop 7)
    else none
  match afterScheme with
  | none => none
  | some rest =>
    let auth := rest.takeWhile (fun c => c ≠ '/')
    if auth.isEmpty then none else some (rest.drop auth.length)

/-- `pageUrlForProduct(host, handle, onlineStoreUrl)` from the server. -/
def pageUrlForProduct (host handle onlineStoreUrl : String) : String :=
  let h := stripPort host
  if onlineStoreUrl ≠ "" then
    match dropSchemeAuthority onlineStoreUrl.data with
    | some rest => String.mk (("https://" ++ h).data ++ rest)
    | none => onlineStoreUrl
  else "https://" ++ h ++ "/products/" ++ handle

/-- `pageUrlForCollection(host, handle)` from the server. -/
def pageUrlForCollection (host handle : String) : String :=
  "https://" ++ stripPort host ++ "/collections/" ++ handle

/-- The components of a WHATWG-parsed URL that `preferHostImageUrl` reads.
The `new URL(...)` parser itself is an external runtime facility and is
abstracted as an oracle `String → Option URLParts` (`none` models the thrown
parse error caught by the `try`/`catch`). -/
structure URLParts where
  hostname : String
  pathname : String
  search : String
  deriving DecidableEq, Repr

/-- First index at which `pat` occurs in the scanned list, starting the count
at `i`: the value of JavaScript `indexOf` with `-1` rendered as `none`. -/
def firstIdxFrom (pat : List Char) : List Char → Nat → Option Nat
  | [], i => if pat.isEmpty then some i else none
  | l@(_ :: rest), i => if pat.isPrefixOf l then some i else firstIdxFrom pat rest (i + 1)

/-- JavaScript `s.indexOf(pat)`, with `-1` rendered as `none`. -/
def jsIndexOf (s pat : String) : Option Nat := firstIdxFrom pat.data s.data 0

/-- `preferHostImageUrl(originalUrl, host)` from the server, over a URL-parse
oracle: rewrite `cdn.shopify.com` URLs whose path contains `/products/` or
`/files/` to `https://{host}/cdn/shop/...`, and return everything else (and
every unparsable string) unchanged. -/
def preferHostImageUrl (parseURL : String → Option URLParts) (originalUrl host : String) :
    String :=
  match parseURL originalUrl with
  | none => originalUrl
  | some u =>
    if u.hostname ≠ "cdn.shopify.com" then originalUrl
    else
      match jsIndexOf u.pathname "/products/" with
      | some i =>
        "https://" ++ host ++ "/cdn/shop" ++ String.mk (u.pathname.data.drop i) ++ u.search
      | none =>
        match jsIndexOf u.pathname "/files/" with
        | some i =>
          "https://" ++ host ++ "/cdn/shop" ++ String.mk (u.pathname.data.drop i) ++ u.search
        | none => originalUrl

/-! ### Translations: data model and fallback resolution -/

/-- One `(key, value)` pair from the Admin translations API.  A missing or
null field is modelled by the empty string, which is exactly what the
source's truthiness tests (`!t?.key || !t?.value`) treat as absent. -/
structure Translation where
  key : String
  value : String
  deriving DecidableEq, Repr

/-- Split a character list at `/`, the effect of `String(gid).split("/")`. -/
def splitSlash : List Char → List (List Char)
  | [] => [[]]
  | c :: rest =>
    match splitSlash rest with
    | [] => [[]]
    | h :: t => if c = '/' then [] :: h :: t else (c :: h) :: t

/-- `numericIdFromGid(gid)`: null/empty gid gives null, otherwise the last
`/`-separated segment of the gid string. -/
def numericIdFromGid (gid : String) : Option String :=
  if gid = "" then none
  else some (String.mk ((splitSlash gid.data).getLast?.getD []))

/-- `extractTranslatedValue(translations, keyExact)`: the value of the first
entry whose key is exactly `keyExact` and whose value is truthy, else `""`. -/
def extractTranslatedValue : List Translation → String → String
  | [], _ => ""
  | t :: ts, keyExact =>
    if t.key = keyExact ∧ t.value ≠ "" then t.value else extractTranslatedValue ts keyExact

/-- The test `t.key.match(/^image\[(\d+)\]\.alt$/i)`: case-insensitively match
`image[<digits>].alt` and return the digit group. -/
def matchImageAltKey (key : String) : Option String :=
  let l := key.data.map Char.toLower
  if "image[".data.isPrefixOf l ∧ "].alt".data.isSuffixOf l then
    let mid := (l.drop 6).take ((l.drop 6).length - 5)
    if mid ≠ [] ∧ mid.all Char.isDigit then some (String.mk mid) else none
  else none

/-- `buildImageAltMapFromTranslations(translations)`: a JavaScript `Map` from
`"*"` (wildcard) or a numeric image id to translated alt text; later entries
overwrite earlier ones.  The map is modelled as a lookup function. -/
def buildImageAltMapFromTranslations (translations : List Translation) :
    String → Option String :=
  translations.foldl (fun m t =>
    if t.key = "" ∨ t.value = "" then m
    else if t.key = "image.alt_text" then fun q => if q = "*" then some t.value else m q
    else
      match matchImageAltKey t.key with
      | some d => fun q => if q = d then some t.value else m q
      | none => m) (fun _ => none)

/-- The subexpression `(imgIdNum && imageAltMap.get(imgIdNum))` of the product
image resolution: empty unless the id is truthy and present in the map. -/
def imgAltSpecific (m : String → Option String) (imgIdNum : Option String) : String :=
  match imgIdNum with
  | some i => if i = "" then "" else (m i).getD ""
  | none => ""

/-- The `/image.xml` product-image text resolution of the OAuth/hybrid
revisions:
`translatedAlt = (imgIdNum && imageAltMap.get(imgIdNum)) || imageAltMap.get("*") || ""`
then `resolved = translatedAlt || productTitleTr || ""` (strict: no
base-locale fallback). -/
def productResolvedText (trs : List Translation) (imgIdNum : Option String) : String :=
  let productTitleTr := extractTranslatedValue trs "title"
  let imageAltMap := buildImageAltMapFromTranslations trs
  let translatedAlt :=
    jsOr (imgAltSpecific imageAltMap imgIdNum) (jsOr ((imageAltMap "*").getD "") "")
  jsOr translatedAlt (jsOr productTitleTr "")

/-- The `/image.xml` collection-image alt resolution: a `for` loop over all
translation entries in which a wildcard (`image.alt_text`) or an id-matching
(`image[<id>].alt`) entry each overwrite the current value, so the last
matching entry wins regardless of specificity. -/
def collectionImageAltTr (trs : List Translation) (imgIdNum : Option String) : String :=
  trs.foldl (fun acc t =>
    if t.key = "" ∨ t.value = "" then acc
    else
      let acc1 := if t.key = "image.alt_text" then t.value else acc
      match matchImageAltKey t.key, imgIdNum with
      | some d, some i => if i ≠ "" ∧ d = i then t.value else acc1
      | _, _ => acc1) ""

/-- The collection resolution `resolved = imageAltTr || collectionTitleTr || ""`. -/
def collectionResolvedText (trs : List Translation) (imgIdNum : Option String) : String :=
  jsOr (collectionImageAltTr trs imgIdNum) (jsOr (extractTranslatedValue trs "title") "")

/-! ### Reference (spec-side) views of the fallback chain -/

/-- Value of the last usable wildcard (`image.alt_text`) entry, or `""`. -/
def lastUsableWildcard (trs : List Translation) : String :=
  ((trs.reverse.find? (fun t => t.value ≠ "" ∧ t.key = "image.alt_text")).map
    Translation.value).getD ""

/-- Value of the last usable exact-image entry `image[<i>].alt`, or `""`. -/
def lastUsableExact (trs : List Translation) (i : String) : String :=
  ((trs.reverse.find? (fun t => t.value ≠ "" ∧ matchImageAltKey t.key = some i)).map
    Translation.value).getD ""

/-- Value of the first usable `title` entry, or `""`. -/
def firstUsableTitle (trs : List Translation) : String :=
  ((trs.find? (fun t => t.key = "title" ∧ t.value ≠ "")).map Translation.value).getD ""

/-- The three-step chain the product code actually implements: exact-image
translation, else wildcard translation, else translated title, else empty. -/
def specProductFallback (trs : List Translation) (imgIdNum : Option String) : String :=
  let specific :=
    match imgIdNum with
    | some i => if i = "" then "" else lastUsableExact trs i
    | none => ""
  if specific ≠ "" then specific
  else if lastUsableWildcard trs ≠ "" then lastUsableWildcard trs
  else if firstUsableTitle trs ≠ "" then firstUsableTitle trs
  else ""

/-- Whether a translation entry is usable by the collection alt loop: truthy
value and either the wildcard key or an exact key matching the image id. -/
def combinedAltHit (imgIdNum : Option String) (t : Translation) : Bool :=
  decide (t.value ≠ "") &&
    (decide (t.key = "image.alt_text") ||
      (match imgIdNum with
       | some i => decide (i ≠ "") && decide (matchImageAltKey t.key = some i)
       | none => false))

/-- Value of the last usable entry that is either a wildcard or an id-matching
exact entry — the collection loop's last-match-wins semantics. -/
def lastUsableCombined (trs : List Translation) (imgIdNum : Option String) : String :=
  ((trs.reverse.find? (combinedAltHit imgIdNum)).map Translation.value).getD ""

/-- The chain the collection code actually implements: last matching alt
entry (wildcard or id-match, whichever comes later), else translated title,
else empty. -/
def specCollectionFallback (trs : List Translation) (imgIdNum : Option String) : String :=
  if lastUsableCombined trs imgIdNum ≠ "" then lastUsableCombined trs imgIdNum
  else if firstUsableTitle trs ≠ "" then firstUsableTitle trs
  else ""

/-- Modelled from the spec (§4.2 fallback precedence): the reference chain the
claim describes — image-specific translation, then wildcard, then translated
title, then the base-locale field value. -/
def specFallbackWithBase (trs : List Translation) (imgIdNum : Option String)
    (baseValue : String) : String :=
  if specProductFallback trs imgIdNum ≠ "" then specProductFallback trs imgIdNum
  else baseValue

/-- Per-slot write test of `buildImageAltMapFromTranslations`: entry `t`
writes slot `q` exactly when it is usable and its key addresses `q`. -/
def altWriteHit (q : String) (t : Translation) : Bool :=
  decide (¬(t.key = "" ∨ t.value = "")) &&
    (if t.key = "image.alt_text" then decide (q = "*")
     else decide (matchImageAltKey t.key = some q))

/-- The apostrophe character, one of the five XML-significant characters. -/
def apostrophe : Char := Char.ofNat 39

/-! ### Rendering of a product slice (`/image.xml` product section) -/

/-- One image node of a product from the Admin GraphQL listing. -/
structure ImageNode where
  id : String
  url : String
  altText : String
  deriving DecidableEq, Repr

/-- One product node of the Admin GraphQL listing. -/
structure Product where
  id : String
  title : String
  handle : String
  onlineStoreUrl : String
  updatedAt : String
  images : List ImageNode
  deriving DecidableEq, Repr

/-- `buildImageNode(loc, title, caption)` of the OAuth/hybrid revisions: the
title and caption elements are emitted only when non-empty. -/
def buildImageNode (loc title caption : String) : String :=
  "\n        <image:image>\n          <image:loc>" ++ x loc ++ "</image:loc>\n          " ++
    (if title ≠ "" then "<image:title>" ++ x title ++ "</image:title>" else "") ++
    "\n          " ++
    (if caption ≠ "" then "<image:caption>" ++ x caption ++ "</image:caption>" else "") ++
    "\n        </image:image>"

/-- `buildUrlNode(pageLoc, lastmodISO, imageNodes)`. -/
def buildUrlNode (pageLoc lastmodISO : String) (imageNodes : List String) : String :=
  "<url>\n      <loc>" ++ x pageLoc ++ "</loc>\n      " ++
    (if lastmodISO ≠ "" then "<lastmod>" ++ x lastmodISO ++ "</lastmod>" else "") ++
    String.join imageNodes ++ "\n    </url>"

/-- The per-item body of the translation fan-out:
`let trs = null; if (idNum) trs = await fetchProductTranslations(idNum, locale)`.
The translations API (with its fixed shop, token and locale) is the oracle
`tr`; `tr i = none` models a non-success response (`if (!resp.ok) return null`)
or an absent translation list. -/
def fetchTrsForId (tr : String → Option (List Translation)) (idNum : Option String) :
    Option (List Translation) :=
  match idNum with
  | some i => if i = "" then none else tr i
  | none => none

/-- `new Map(pairs)`: later pairs overwrite earlier ones; modelled as a
lookup function. -/
def jsMapOfPairs (l : List (String × List Translation)) :
    String → Option (List Translation) :=
  l.foldl (fun m kv => fun q => if q = kv.1 then some kv.2 else m q) (fun _ => none)

/-- The body of the product render loop for one product, given the
translation list recovered for it (`transMap.get(p.id) || []`). -/
def renderProductNode (parseURL : String → Option URLParts) (host : String)
    (preferHost includeCaptions : Bool) (p : Product) (trs : List Translation) : String :=
  let pageUrl := pageUrlForProduct host p.handle p.onlineStoreUrl
  let imageNodes := p.images.map (fun img =>
    let imgIdNum := numericIdFromGid img.id
    let resolved := productResolvedText trs imgIdNum
    let imgUrl := if preferHost then preferHostImageUrl parseURL img.url host else img.url
    let caption := if includeCaptions then resolved else ""
    buildImageNode imgUrl resolved caption)
  buildUrlNode pageUrl p.updatedAt imageNodes

/-- The product section of the `/image.xml` handler: fan out the per-entity
translation lookups over the slice (`pMap`, modelled value-wise — results are
merged back by entity id through the `Map`, not by completion order), then
render each product that has at least one image, in slice order. -/
def renderProductsSection (parseURL : String → Option URLParts) (host : String)
    (preferHost includeCaptions : Bool) (products : List Product)
    (tr : String → Option (List Translation)) : List String :=
  let prodTrans := products.map (fun p => (p.id, fetchTrsForId tr (numericIdFromGid p.id)))
  let transMap := jsMapOfPairs (prodTrans.map (fun r => (r.1, r.2.getD [])))
  products.foldl (fun nodes p =>
    if p.images.length = 0 then nodes
    else nodes ++ [renderProductNode parseURL host preferHost includeCaptions p
      ((transMap p.id).getD [])]) []

/-! ### The response-cache key -/

/-- Code-unit-wise lexicographic comparison of two strings, the comparison
used by JavaScript `Array.prototype.sort()` without a comparator. -/
def charListLe : List Char → List Char → Bool
  | [], _ => true
  | _ :: _, [] => false
  | a :: as, b :: bs => if a < b then true else if b < a then false else charListLe as bs

/-- Sorted insertion for `keySort`. -/
def keyOrderedInsert (a : String) : List String → List String
  | [] => [a]
  | b :: l => if charListLe a.data b.data then a :: b :: l else b :: keyOrderedInsert a l

/-- The effect of `.sort()` on the entry strings (all entries here are
pairwise distinct, so any correct sort gives the JavaScript result). -/
def keySort : List String → List String
  | [] => []
  | a :: l => keyOrderedInsert a (keySort l)

/-- `.join("|")`. -/
def joinBar : List String → String
  | [] => ""
  | [s] => s
  | s :: s2 :: rest => s ++ "|" ++ joinBar (s2 :: rest)

/-- `cacheKey(parts)` from the server:
`Object.entries(parts).map(([k,v]) => k+"="+v).sort().join("|")`. -/
def cacheKey (parts : List (String × String)) : String :=
  joinBar (keySort (parts.map (fun kv => kv.1 ++ "=" ++ kv.2)))

/-- JavaScript stringification of a boolean in a template literal. -/
def boolStr (b : Bool) : String := if b then "true" else "false"

/-- The `/image.xml` cache key of the hybrid server.js revision:
`cacheKey({route:"image.xml", host, page, perPage, type, preferHost, locale})`
(entries in object-literal insertion order; `page` and `perPage` are the
stringified numbers). -/
def imageXmlCacheKey (host page perPage ty : String) (preferHost : Bool)
    (locale : String) : String :=
  cacheKey [("route", "image.xml"), ("host", host), ("page", page), ("perPage", perPage),
    ("type", ty), ("preferHost", boolStr preferHost), ("locale", locale)]

/-- A string containing no `|` separator character; the cache-key encoding is
unambiguous exactly for such parameter values. -/
def barFree (s : String) : Prop := '|' ∉ s.data

instance (s : String) : Decidable (barFree s) :=
  inferInstanceAs (Decidable ('|' ∉ s.data))

example : gqlPagedSlice [10, 20, 30, 40, 50] (fun _ => false) 2
    (JSNum.int 1) (JSNum.int 3) = SliceResult.ok [20, 30, 40] := by decide

example : gqlPagedSlice [10, 20, 30] (fun _ => false) 2
    (JSNum.int 4) (JSNum.int 3) = SliceResult.ok ([] : List Nat) := by decide

example : gqlPagedSlice [10, 20, 30] (fun _ => false) 2
    JSNum.nan (JSNum.int 2) = SliceResult.ok [10, 20] := by decide

example : gqlPagedSlice [10, 20, 30] (fun _ => false) 2
    (JSNum.int 0) JSNum.nan = SliceResult.ok ([] : List Nat) := by decide

example : gqlPagedSlice [10, 20, 30] (fun p => p == 2) 2
    (JSNum.int 1) (JSNum.int 3) = SliceResult.fail := by decide

example : pageParam (some "abc") = JSNum.nan := by decide

example : pageParam (some "-7") = JSNum.int 1 := by decide

example : perPageParam "200" 5000 (some "99999") = JSNum.int 5000 := by decide

example : sfGetProductsSlice (List.range 10) 2 3 = [2, 3, 4] := by decide

set_option maxRecDepth 4000 in
example : (sfGetProductsSlice (List.range 251) 0 251).length = 250 := by decide

/-! ### Slice correctness of the cursor paginator -/

theorem take_min_length (l : List α) (n : Nat) : l.take (min n l.length) = l.take n := by
  rw [← List.take_take, List.take_length]

theorem jsLtNat_int (a b : Nat) : jsLtNat a (JSNum.int b) = decide (a < b) := by
  simp [jsLtNat]

theorem jsGeNat_int (a b : Nat) : jsGeNat a (JSNum.int b) = decide (b ≤ a) := by
  simp [jsGeNat]

theorem procEdges_spec (catalog : List α) (oN tN : Nat) :
    ∀ (es : List α) (pos skipped : Nat) (out : List α),
      skipped = min pos oN →
      out = (catalog.drop oN).take (min (pos - oN) tN) →
      es = (catalog.drop pos).take es.length →
      procEdges (JSNum.int oN) (JSNum.int tN) es skipped out =
        (min (pos + es.length) oN,
         (catalog.drop oN).take (min (pos + es.length - oN) tN)) := by
  intro es
  induction es with
  | nil =>
    intro pos skipped out hsk hout _
    simp [procEdges, hsk, hout]
  | cons e es ih =>
    intro pos skipped out hsk hout hes
    have hposL : pos < catalog.length := by
      by_contra hge
      have hnil : catalog.drop pos = [] := List.drop_eq_nil_iff.mpr (by omega)
      rw [hnil] at hes
      simp at hes
    have hdec : catalog.drop pos = catalog[pos] :: catalog.drop (pos + 1) :=
      List.drop_eq_getElem_cons hposL
    rw [hdec, List.length_cons, List.take_succ_cons] at hes
    have he : e = catalog[pos] := (List.cons_eq_cons.mp hes).1
    have hes' : es = (catalog.drop (pos + 1)).take es.length := (List.cons_eq_cons.mp hes).2
    have hlenout : out.length = min (min (pos - oN) tN) (catalog.length - oN) := by
      rw [hout, List.length_take, List.length_drop]
    simp only [procEdges, jsLtNat_int]
    by_cases h1 : skipped < oN
    · -- skip phase: this node is consumed without being collected
      have hppos : pos = skipped := by omega
      rw [if_pos (by simpa using h1)]
      have harith : pos + (es.length + 1) = (pos + 1) + es.length := by omega
      rw [List.length_cons, harith,
        ih (pos + 1) (skipped + 1) out (by omega)
          (by rw [hout]; congr 1; omega) hes']
    · rw [if_neg (by simpa using h1)]
      have hsko : skipped = oN := by omega
      have hpos_ge : oN ≤ pos := by omega
      by_cases h2 : out.length < tN
      · -- collect phase: this node is appended to the output
        have hlt : pos - oN < tN := by omega
        have houtx : out = (catalog.drop oN).take (pos - oN) := by
          rw [hout]; congr 1; omega
        have hidx : pos - oN < (catalog.drop oN).length := by
          rw [List.length_drop]; omega
        have hconcat : out ++ [e] = (catalog.drop oN).take (pos - oN + 1) := by
          rw [houtx, he, ← List.take_concat_get (catalog.drop oN) (pos - oN) hidx,
            List.concat_eq_append]
          congr 2
          rw [List.getElem_drop]
          congr 1
          omega
        rw [if_pos (by simpa using h2)]
        have harith : pos + (es.length + 1) = (pos + 1) + es.length := by omega
        rw [List.length_cons, harith,
          ih (pos + 1) skipped (out ++ [e]) (by omega)
            (by rw [hconcat]; congr 1; omega) hes']
      · -- output already full: remaining nodes of this page are dropped
        rw [if_neg (by simpa using h2)]
        have htle : tN ≤ pos - oN := by omega
        refine Prod.ext ?_ ?_
        · simp only
          omega
        · simp only
          rw [hout]
          congr 1
          omega

theorem gqlLoop_ok_spec (catalog : List α) (failAt : Nat → Bool) (first oN tN : Nat)
    (hfirst : 1 ≤ first) :
    ∀ (fuel pos skipped : Nat) (out : List α),
      catalog.length + 1 ≤ fuel + pos →
      pos ≤ catalog.length →
      skipped = min pos oN →
      out = (catalog.drop oN).take (min (pos - oN) tN) →
      ∀ s, gqlLoop catalog failAt first (JSNum.int oN) (JSNum.int tN) fuel pos skipped out =
          SliceResult.ok s →
        s = (catalog.drop oN).take tN := by
  intro fuel
  induction fuel with
  | zero => intro pos skipped out hfuel hpos _ _ s _; omega
  | succ fuel ih =>
    intro pos skipped out hfuel hpos hsk hout s hrun
    have hlenout : out.length = min (min (pos - oN) tN) (catalog.length - oN) := by
      rw [hout, List.length_take, List.length_drop]
    simp only [gqlLoop, jsLtNat_int] at hrun
    by_cases hw : out.length < tN
    · rw [if_neg (by simpa using hw)] at hrun
      by_cases hf : failAt pos
      · rw [if_pos hf] at hrun
        exact absurd hrun (by simp)
      · rw [if_neg hf] at hrun
        have hedlen : ((catalog.drop pos).take first).length = min first (catalog.length - pos) := by
          rw [List.length_take, List.length_drop]
        by_cases hemp : ((catalog.drop pos).take first).length = 0
        · -- upstream returned no edges: catalog exhausted at pos
          rw [if_pos hemp] at hrun
          have hposL : pos = catalog.length := by omega
          have : s = out := by
            cases hrun
            rfl
          rw [this, hout, ← take_min_length (catalog.drop oN) tN, List.length_drop]
          congr 1
          omega
        · rw [if_neg hemp] at hrun
          have hedges : (catalog.drop pos).take first =
              (catalog.drop pos).take ((catalog.drop pos).take first).length := by
            rw [List.length_take, ← List.take_take, List.take_length]
          have hproc := procEdges_spec catalog oN tN ((catalog.drop pos).take first)
            pos skipped out hsk hout hedges
          rw [hproc] at hrun
          simp only [jsGeNat_int] at hrun
          set len := ((catalog.drop pos).take first).length with hlen
          by_cases hcont : pos + len < catalog.length ∧
              ¬ (decide (tN ≤ (((catalog.drop oN).take (min (pos + len - oN) tN)).length)) = true)
          · rw [if_pos hcont] at hrun
            exact ih (pos + len) (min (pos + len) oN)
              ((catalog.drop oN).take (min (pos + len - oN) tN))
              (by omega) (by omega) rfl rfl s hrun
          · rw [if_neg hcont] at hrun
            have hs : s = (catalog.drop oN).take (min (pos + len - oN) tN) := by
              cases hrun
              rfl
            have hrlen : (((catalog.drop oN).take (min (pos + len - oN) tN)).length) =
                min (min (pos + len - oN) tN) (catalog.length - oN) := by
              rw [List.length_take, List.length_drop]
            rcases Decidable.not_and_iff_or_not.mp hcont with hend | hfull
            · -- hasNextPage is false: the catalog is fully consumed
              have hle : pos + len ≤ catalog.length := by omega
              have hposL : pos + len = catalog.length := by omega
              rw [hs, ← take_min_length (catalog.drop oN) tN, List.length_drop]
              congr 1
              omega
            · -- the output is full: min (pos + len - oN) tN = tN
              have htle : tN ≤ ((catalog.drop oN).take (min (pos + len - oN) tN)).length := by
                simpa using hfull
              rw [hs]
              congr 1
              omega
    · rw [if_pos (by simpa using hw)] at hrun
      have hs : s = out := by
        cases hrun
        rfl
      rw [hs, hout]
      congr 1
      omega

theorem gqlLoop_noFail (catalog : List α) (first : Nat) (oN tN : JSNum) :
    ∀ (fuel pos skipped : Nat) (out : List α),
      ∃ s, gqlLoop catalog (fun _ => false) first oN tN fuel pos skipped out =
        SliceResult.ok s := by
  intro fuel
  induction fuel with
  | zero => intro pos skipped out; exact ⟨out, rfl⟩
  | succ fuel ih =>
    intro pos skipped out
    simp only [gqlLoop]
    by_cases hw : ¬ jsLtNat out.length tN = true
    · rw [if_pos hw]; exact ⟨out, rfl⟩
    · rw [if_neg hw, if_neg (by simp)]
      by_cases hemp : ((catalog.drop pos).take first).length = 0
      · rw [if_pos hemp]; exact ⟨out, rfl⟩
      · rw [if_neg hemp]
        by_cases hcont : pos + ((catalog.drop pos).take first).length < catalog.length ∧
            ¬ jsGeNat (procEdges oN tN ((catalog.drop pos).take first) skipped out).2.length
              tN = true
        · rw [if_pos hcont]
          exact ih _ _ _
        · rw [if_neg hcont]
          exact ⟨_, rfl⟩

/-- The paginator walk on an always-successful upstream returns exactly the
requested window of the catalog. -/
theorem gqlPagedSlice_ok (catalog : List α) (first oN tN : Nat) (hfirst : 1 ≤ first) :
    gqlPagedSlice catalog (fun _ => false) first (JSNum.int oN) (JSNum.int tN) =
      SliceResult.ok ((catalog.drop oN).take tN) := by
  obtain ⟨s, hs⟩ := gqlLoop_noFail catalog first (JSNum.int oN) (JSNum.int tN)
    (catalog.length + 1) 0 0 []
  have hspec := gqlLoop_ok_spec catalog (fun _ => false) first oN tN hfirst
    (catalog.length + 1) 0 0 [] (by omega) (by omega) (by omega) (by simp) s hs
  rw [gqlPagedSlice, hs, hspec]

/-- C1 counterexample: the claim quantifies over every positive limit and
includes `sfGetProductsSlice` among the slice implementations, but
`sfGetProductsSlice` caps its single Storefront query at
`pageSize = min(max(limit,50),250) = 250`, so on a 251-entity catalog the
requested window `[0, 251)` comes back truncated to 250 entities instead of
equalling the materialized slice. -/
theorem c1_counterexample :
    sfGetProductsSlice (List.range 251) 0 251 ≠ ((List.range 251).drop 0).take 251 := by
  set_option maxRecDepth 8000 in decide

/-- C1 (amended): for every catalog, non-negative offset and positive limit,
the cursor paginator `gqlPagedSlice` (hence `getProductsSlice`) returns
exactly the window `[offset, offset+limit)` of the materialized newest-first
catalog, including the boundary cases `offset = N` and `offset+limit > N`
(a short or empty list, never an error); `sfGetProductsSlice` agrees with the
materialized slice only for `limit ≤ 250`, its Storefront page-size cap. -/
theorem c1_fetchSlice_window (catalog : List α) (offset limit first : Nat)
    (hfirst : 1 ≤ first) (hlimit : 1 ≤ limit) :
    gqlPagedSlice catalog (fun _ => false) first (JSNum.int offset) (JSNum.int limit) =
      SliceResult.ok ((catalog.drop offset).take limit) ∧
    getProductsSlice catalog (fun _ => false) (JSNum.int offset) (JSNum.int limit) =
      SliceResult.ok ((catalog.drop offset).take limit) ∧
    (limit ≤ 250 →
      sfGetProductsSlice catalog offset limit = (catalog.drop offset).take limit) := by
  refine ⟨gqlPagedSlice_ok catalog first offset limit hfirst,
    gqlPagedSlice_ok catalog 100 offset limit (by omega), ?_⟩
  intro hle
  simp only [sfGetProductsSlice]
  rw [List.drop_take, List.take_take]
  congr 1
  omega

/-- Witness for C1 at a concrete catalog, offset and limit. -/
theorem c1_fetchSlice_window_witness :
    gqlPagedSlice [3, 1, 4, 1, 5] (fun _ => false) 2 (JSNum.int 1) (JSNum.int 2) =
      SliceResult.ok [1, 4] ∧
    sfGetProductsSlice [3, 1, 4, 1, 5] 1 2 = [1, 4] := by
  have h := c1_fetchSlice_window ([3, 1, 4, 1, 5] : List Nat) 1 2 2 (by decide) (by decide)
  exact ⟨h.1.trans (by decide), (h.2.2 (by decide)).trans (by decide)⟩

/-- C2: for a fixed page size `k ≥ 1`, concatenating the successive pages
`fetchSlice(0,k), fetchSlice(k,k), ...` up to the first empty page
reconstructs the full ordered catalog exactly — no entity skipped,
duplicated or reordered — and the walk does reach an empty page (the page at
offset `n*k` is `ok []` once `n*k` covers the catalog). -/
theorem c2_no_duplication_no_loss (catalog : List α) (k n first : Nat)
    (hk : 1 ≤ k) (hfirst : 1 ≤ first) (hn : catalog.length ≤ n * k) :
    (pagesConcat catalog first k n).flatten = catalog ∧
    gqlPagedSlice catalog (fun _ => false) first (JSNum.int (↑(n * k))) (JSNum.int k) =
      SliceResult.ok [] := by
  have hmap : pagesConcat catalog first k n =
      (List.range n).map (fun (i : Nat) => (catalog.drop (i * k)).take k) := by
    unfold pagesConcat
    apply List.map_congr_left
    intro i _
    rw [gqlPagedSlice_ok catalog first (i * k) k hfirst]
  have key : ∀ m : Nat,
      ((List.range m).map (fun (i : Nat) => (catalog.drop (i * k)).take k)).flatten =
      catalog.take (m * k) := by
    intro m
    induction m with
    | zero => simp
    | succ m ihm =>
      rw [List.range_succ, List.map_append, List.flatten_append, ihm]
      simp only [List.map_cons, List.map_nil, List.flatten_cons, List.flatten_nil,
        List.append_nil]
      rw [← List.take_add, Nat.succ_mul]
  constructor
  · rw [hmap, key n, List.take_of_length_le hn]
  · rw [gqlPagedSlice_ok catalog first (n * k) k hfirst,
      List.drop_eq_nil_iff.mpr hn]
    simp

/-- Witness for C2 at a concrete catalog and page size. -/
theorem c2_no_duplication_no_loss_witness :
    (pagesConcat [3, 1, 4, 1, 5] 100 2 3).flatten = [3, 1, 4, 1, 5] ∧
    gqlPagedSlice [3, 1, 4, 1, 5] (fun _ => false) 100 (JSNum.int 6) (JSNum.int 2) =
      SliceResult.ok [] := by
  have h := c2_no_duplication_no_loss ([3, 1, 4, 1, 5] : List Nat) 2 3 100
    (by decide) (by decide) (by decide)
  exact ⟨h.1, by simpa using h.2⟩

/-- C4: a non-success status on any upstream listing call is atomic and
propagated: (a) any successful return of the slice fetch is the exact
materialized window, so no failure ever surfaces a partial slice; (b) a
failing call aborts the whole fetch with the propagated error (shown for the
walk's first call, which every fetch with a positive limit performs);
(c) the propagated error surfaces as the handler's 500 response, which is
not a 200. -/
theorem c4_listing_failure_atomic (catalog : List α) (failAt : Nat → Bool)
    (first oN tN : Nat) (hfirst : 1 ≤ first) :
    (∀ s, gqlPagedSlice catalog failAt first (JSNum.int oN) (JSNum.int tN) =
        SliceResult.ok s → s = (catalog.drop oN).take tN) ∧
    (1 ≤ tN → failAt 0 = true →
      gqlPagedSlice catalog failAt first (JSNum.int oN) (JSNum.int tN) = SliceResult.fail) ∧
    (gqlPagedSlice catalog failAt first (JSNum.int oN) (JSNum.int tN) = SliceResult.fail →
      handlerStatus (gqlPagedSlice catalog failAt first (JSNum.int oN) (JSNum.int tN)) = 500 ∧
      (500 : Nat) ≠ 200) := by
  refine ⟨?_, ?_, ?_⟩
  · intro s hs
    exact gqlLoop_ok_spec catalog failAt first oN tN hfirst (catalog.length + 1) 0 0 []
      (by omega) (by omega) (by omega) (by simp) s hs
  · intro htN hfail
    simp only [gqlPagedSlice, gqlLoop, jsLtNat_int]
    rw [if_neg (by simp; omega), if_pos hfail]
  · intro hfail
    rw [hfail]
    exact ⟨rfl, by decide⟩

/-- Witness for C4: on a concrete catalog whose first listing call fails, the
fetch aborts with the propagated failure and the handler responds 500. -/
theorem c4_listing_failure_atomic_witness :
    gqlPagedSlice [3, 1, 4] (fun _ => true) 100 (JSNum.int 0) (JSNum.int 2) =
      SliceResult.fail ∧
    handlerStatus (gqlPagedSlice [3, 1, 4] (fun _ => true) 100 (JSNum.int 0) (JSNum.int 2)) =
      500 := by
  have h := c4_listing_failure_atomic ([3, 1, 4] : List Nat) (fun _ => true) 100 0 2 (by decide)
  have hf := h.2.1 (by decide) rfl
  exact ⟨hf, (h.2.2 hf).1⟩

/-! ### Malformed pagination input (claim C8) -/

theorem jsLtNat_nan (a : Nat) : jsLtNat a JSNum.nan = false := rfl

theorem jsLtNat_int_zero (a : Nat) : jsLtNat a (JSNum.int 0) = false := by
  simp [jsLtNat]

theorem procEdges_nan_offset (take : JSNum) :
    ∀ (es : List α) (skipped : Nat) (out : List α),
      procEdges JSNum.nan take es skipped out = procEdges (JSNum.int 0) take es skipped out := by
  intro es
  induction es with
  | nil => intro skipped out; rfl
  | cons e es ih =>
    intro skipped out
    simp only [procEdges, jsLtNat_nan, jsLtNat_int_zero, Bool.false_eq_true, if_false]
    by_cases h : jsLtNat out.length take = true
    · rw [if_pos h, if_pos h, ih]
    · rw [if_neg h, if_neg h]

theorem gqlLoop_nan_offset (catalog : List α) (failAt : Nat → Bool) (first : Nat)
    (take : JSNum) :
    ∀ (fuel pos skipped : Nat) (out : List α),
      gqlLoop catalog failAt first JSNum.nan take fuel pos skipped out =
        gqlLoop catalog failAt first (JSNum.int 0) take fuel pos skipped out := by
  intro fuel
  induction fuel with
  | zero => intro pos skipped out; rfl
  | succ fuel ih =>
    intro pos skipped out
    simp only [gqlLoop, procEdges_nan_offset, ih]

/-- C8 counterexample: a non-numeric `page`/`per_page` is not clamped into the
valid range — `parseInt` gives NaN and `Math.max`/`Math.min` propagate it — and
a NaN `per_page` produces an empty slice where the clamped minimum `per_page=1`
would return one entity.  (No hard error is produced, but the claimed clamping
does not happen.) -/
theorem c8_counterexample :
    pageParam (some "abc") = JSNum.nan ∧
    perPageParam "200" 5000 (some "abc") = JSNum.nan ∧
    gqlPagedSlice [1, 2, 3] (fun _ => false) 100 (JSNum.int 0) JSNum.nan =
      SliceResult.ok ([] : List Nat) ∧
    gqlPagedSlice [1, 2, 3] (fun _ => false) 100 (JSNum.int 0) (JSNum.int 1) =
      SliceResult.ok [1] := by
  exact ⟨by decide, by decide, by decide, by decide⟩

/-- C8 (amended): numeric `page`/`per_page` values (including zero, negative
and over-cap ones) are clamped to `page ≥ 1` and `1 ≤ per_page ≤
MAX_URLS_PER_FEED`; a non-numeric value parses to NaN and bypasses the
clamps — NaN `page` gives a NaN offset, which makes the cursor walk behave
exactly like offset 0, and NaN `per_page` yields an empty slice — and in
every case the request still proceeds to a rendered 200 document rather than
a hard error. -/
theorem c8_malformed_input_clamped (catalog : List α) (first : Nat) (hfirst : 1 ≤ first)
    (defaultPerPage : String) (maxUrls : Int) (hmax : 1 ≤ maxUrls)
    (qPage qPerPage : Option String) (tk : JSNum) :
    (pageParam qPage = JSNum.nan ∨ ∃ n : Int, pageParam qPage = JSNum.int n ∧ 1 ≤ n) ∧
    (perPageParam defaultPerPage maxUrls qPerPage = JSNum.nan ∨
      ∃ n : Int, perPageParam defaultPerPage maxUrls qPerPage = JSNum.int n ∧
        1 ≤ n ∧ n ≤ maxUrls) ∧
    (∀ perPage, offsetParam JSNum.nan perPage = JSNum.nan) ∧
    (gqlPagedSlice catalog (fun _ => false) first JSNum.nan tk =
      gqlPagedSlice catalog (fun _ => false) first (JSNum.int 0) tk) ∧
    (∀ off, gqlPagedSlice catalog (fun _ => false) first off JSNum.nan =
      SliceResult.ok []) ∧
    (∀ tN : Nat, handlerStatus
      (gqlPagedSlice catalog (fun _ => false) first JSNum.nan (JSNum.int tN)) = 200) := by
  refine ⟨?_, ?_, ?_, ?_, ?_, ?_⟩
  · cases h : parseIntJS (jsOrStr qPage "1") with
    | nan => left; simp [pageParam, h, jsMax]
    | int n =>
      right
      exact ⟨max n 1, by simp [pageParam, h, jsMax], le_max_right n 1⟩
  · cases h : parseIntJS (jsOrStr qPerPage defaultPerPage) with
    | nan => left; simp [perPageParam, h, jsMax, jsMin]
    | int n =>
      right
      refine ⟨min (max n 1) maxUrls, by simp [perPageParam, h, jsMax, jsMin], ?_, ?_⟩
      · omega
      · omega
  · intro perPage
    simp [offsetParam, jsSub, jsMul]
  · exact gqlLoop_nan_offset catalog (fun _ => false) first tk (catalog.length + 1) 0 0 []
  · intro off
    simp [gqlPagedSlice, gqlLoop, jsLtNat_nan]
  · intro tN
    rw [gqlPagedSlice, gqlLoop_nan_offset catalog (fun _ => false) first (JSNum.int tN)
      (catalog.length + 1) 0 0 []]
    have := gqlPagedSlice_ok catalog first 0 tN hfirst
    rw [gqlPagedSlice] at this
    simp only [Nat.cast_zero] at this
    rw [this]
    rfl

/-- Witness for C8 at concrete malformed and over-cap inputs. -/
theorem c8_malformed_input_clamped_witness :
    pageParam (some "0") = JSNum.int 1 ∧
    perPageParam "200" 5000 (some "99999") = JSNum.int 5000 ∧
    gqlPagedSlice [1, 2, 3] (fun _ => false) 100 JSNum.nan (JSNum.int 2) =
      SliceResult.ok [1, 2] := by
  have h := c8_malformed_input_clamped ([1, 2, 3] : List Nat) 100 (by decide) "200" 5000
    (by decide) (some "0") (some "99999") (JSNum.int 2)
  exact ⟨by decide, by decide, h.2.2.2.1.trans (by decide)⟩

/-! ### Translation fallback precedence (claim C3) -/

theorem jsOr_empty_right (a : String) : jsOr a "" = a := by
  by_cases h : a = ""
  · simp [jsOr, h]
  · simp [jsOr, h]

theorem matchImageAltKey_ne_star {k d : String} (h : matchImageAltKey k = some d) :
    d ≠ "*" := by
  intro hstar
  subst hstar
  simp only [matchImageAltKey] at h
  split at h
  · split at h
    · rename_i hmid
      have hdig := hmid.2
      have hval : String.mk ((k.data.map Char.toLower).drop 6 |>.take
          (((k.data.map Char.toLower).drop 6).length - 5)) = "*" := by
        simpa using h
      have hdata : ((k.data.map Char.toLower).drop 6 |>.take
          (((k.data.map Char.toLower).drop 6).length - 5)) = ['*'] :=
        congrArg String.data hval
      rw [hdata] at hdig
      simp at hdig
    · simp at h
  · simp at h

theorem buildAltMap_append (trs : List Translation) (t : Translation) (q : String) :
    buildImageAltMapFromTranslations (trs ++ [t]) q =
      if altWriteHit q t then some t.value
      else buildImageAltMapFromTranslations trs q := by
  simp only [buildImageAltMapFromTranslations, List.foldl_append, List.foldl_cons,
    List.foldl_nil, ite_apply]
  by_cases hskip : t.key = "" ∨ t.value = ""
  · have h : altWriteHit q t = false := by simp [altWriteHit, hskip]
    simp [hskip, h]
  · have hv : t.value ≠ "" := fun hh => hskip (Or.inr hh)
    by_cases hw : t.key = "image.alt_text"
    · by_cases hq : q = "*"
      · subst hq
        have h : altWriteHit "*" t = true := by simp [altWriteHit, hskip, hw, hv]
        simp [hskip, hw, h, hv]
      · have h : altWriteHit q t = false := by simp [altWriteHit, hw, hq]
        simp [hskip, hw, hq, h, hv]
    · rw [if_neg hskip, if_neg hw]
      cases hm : matchImageAltKey t.key with
      | none =>
        have h : altWriteHit q t = false := by simp [altWriteHit, hw, hm]
        simp [h]
      | some d =>
        by_cases hq : q = d
        · subst hq
          have h : altWriteHit q t = true := by simp [altWriteHit, hskip, hw, hm]
          simp [h]
        · have h : altWriteHit q t = false := by simp [altWriteHit, hw, hm, Ne.symm hq]
          simp [h, hq]

theorem buildAltMap_lookup (trs : List Translation) (q : String) :
    buildImageAltMapFromTranslations trs q =
      (trs.reverse.find? (altWriteHit q)).map Translation.value := by
  induction trs using List.reverseRecOn with
  | nil => rfl
  | append_singleton trs t ih =>
    rw [buildAltMap_append, List.reverse_append]
    simp only [List.reverse_cons, List.reverse_nil, List.nil_append, List.cons_append]
    by_cases h : altWriteHit q t = true
    · rw [List.find?_cons_of_pos _ h, if_pos h]
      rfl
    · rw [List.find?_cons_of_neg _ (by simpa using h), if_neg (by simpa using h)]
      exact ih

theorem jsOr_chain3 (a b c : String) :
    jsOr (jsOr a (jsOr b "")) (jsOr c "") =
      if a ≠ "" then a else if b ≠ "" then b else if c ≠ "" then c else "" := by
  by_cases ha : a = "" <;> by_cases hb : b = "" <;> by_cases hc : c = "" <;>
    simp [jsOr, ha, hb, hc]

theorem jsOr_chain2 (a c : String) :
    jsOr a (jsOr c "") = if a ≠ "" then a else if c ≠ "" then c else "" := by
  by_cases ha : a = "" <;> by_cases hc : c = "" <;> simp [jsOr, ha, hc]

theorem buildAltMap_wildcard (trs : List Translation) :
    ((buildImageAltMapFromTranslations trs "*").getD "") = lastUsableWildcard trs := by
  unfold lastUsableWildcard
  rw [buildAltMap_lookup]
  congr 2
  congr 1
  funext t
  by_cases hw : t.key = "image.alt_text"
  · simp [altWriteHit, hw]
  · cases hm : matchImageAltKey t.key with
    | none => simp [altWriteHit, hw, hm]
    | some d =>
      have hne : d ≠ "*" := matchImageAltKey_ne_star hm
      simp [altWriteHit, hw, hm, hne]

theorem buildAltMap_exact (trs : List Translation) (q : String) (hq : q ≠ "*") :
    ((buildImageAltMapFromTranslations trs q).getD "") = lastUsableExact trs q := by
  unfold lastUsableExact
  rw [buildAltMap_lookup]
  congr 2
  congr 1
  funext t
  by_cases hw : t.key = "image.alt_text"
  · have hm0 : matchImageAltKey "image.alt_text" = none := by decide
    simp [altWriteHit, hw, hm0, hq]
  · cases hm : matchImageAltKey t.key with
    | none => simp [altWriteHit, hw, hm]
    | some d =>
      by_cases hkey : t.key = ""
      · rw [hkey] at hm
        have h0 : matchImageAltKey "" = none := by decide
        rw [h0] at hm
        simp at hm
      · simp [altWriteHit, hw, hm, hkey]

theorem lastUsableExact_star (trs : List Translation) : lastUsableExact trs "*" = "" := by
  unfold lastUsableExact
  rw [List.find?_eq_none.mpr ?_]
  · rfl
  · intro t _
    simp only [Bool.not_eq_true, decide_eq_false_iff_not]
    intro hcon
    exact matchImageAltKey_ne_star hcon.2 rfl

theorem extractTranslatedValue_eq_firstTitle (trs : List Translation) :
    extractTranslatedValue trs "title" = firstUsableTitle trs := by
  induction trs with
  | nil => rfl
  | cons t ts ih =>
    simp only [extractTranslatedValue, firstUsableTitle, List.find?_cons]
    by_cases h : t.key = "title" ∧ t.value ≠ ""
    · rw [if_pos h]
      have hd : (decide (t.key = "title" ∧ t.value ≠ "")) = true := by simpa using h
      rw [hd]
      rfl
    · rw [if_neg h]
      have hd : (decide (t.key = "title" ∧ t.value ≠ "")) = false := by simpa using h
      rw [hd]
      exact ih

theorem collectionAlt_append (trs : List Translation) (t : Translation)
    (imgIdNum : Option String) :
    collectionImageAltTr (trs ++ [t]) imgIdNum =
      if combinedAltHit imgIdNum t then t.value
      else collectionImageAltTr trs imgIdNum := by
  simp only [collectionImageAltTr, List.foldl_append, List.foldl_cons, List.foldl_nil]
  by_cases hskip : t.key = "" ∨ t.value = ""
  · have h : combinedAltHit imgIdNum t = false := by
      rcases hskip with hk | hv
      · have hm0 : matchImageAltKey "" = none := by decide
        cases imgIdNum with
        | none => simp [combinedAltHit, hk]
        | some i => simp [combinedAltHit, hk, hm0]
      · simp [combinedAltHit, hv]
    simp [hskip, h]
  · have hv : t.value ≠ "" := fun hh => hskip (Or.inr hh)
    by_cases hw : t.key = "image.alt_text"
    · have hm : matchImageAltKey t.key = none := by rw [hw]; decide
      have h : combinedAltHit imgIdNum t = true := by
        cases imgIdNum with
        | none => simp [combinedAltHit, hw, hv]
        | some i => simp [combinedAltHit, hw, hv]
      rw [hm, h]
      simp [hskip, hw, hv]
    · cases hm : matchImageAltKey t.key with
      | none =>
        have h : combinedAltHit imgIdNum t = false := by
          cases imgIdNum with
          | none => simp [combinedAltHit, hw]
          | some i => simp [combinedAltHit, hw, hm]
        rw [h]
        simp [hskip, hw, hv]
      | some d =>
        cases imgIdNum with
        | none =>
          have h : combinedAltHit none t = false := by simp [combinedAltHit, hw]
          rw [h]
          simp [hskip, hw, hv]
        | some i =>
          by_cases hcond : i ≠ "" ∧ d = i
          · have h : combinedAltHit (some i) t = true := by
              simp only [combinedAltHit, hm]
              simp only [Bool.and_eq_true, Bool.or_eq_true, decide_eq_true_eq]
              exact ⟨hv, Or.inr ⟨hcond.1, by rw [hcond.2]⟩⟩
            rw [h]
            simp only [if_neg hskip, if_true]
            rw [if_pos hcond]
          · have h : combinedAltHit (some i) t = false := by
              simp only [combinedAltHit, hm]
              by_cases hdi : d = i
              · have hi : i = "" := by tauto
                simp [hw, hi]
              · simp [hw, hdi]
            rw [h]
            simp only [if_neg hskip, if_false]
            rw [if_neg hcond]
            simp [hw]

theorem collectionAlt_lookup (trs : List Translation) (imgIdNum : Option String) :
    collectionImageAltTr trs imgIdNum = lastUsableCombined trs imgIdNum := by
  induction trs using List.reverseRecOn with
  | nil => rfl
  | append_singleton trs t ih =>
    rw [collectionAlt_append]
    unfold lastUsableCombined
    rw [List.reverse_append]
    simp only [List.reverse_cons, List.reverse_nil, List.nil_append, List.cons_append]
    by_cases h : combinedAltHit imgIdNum t = true
    · rw [List.find?_cons_of_pos _ h, if_pos h]
      rfl
    · rw [List.find?_cons_of_neg _ (by simpa using h), if_neg (by simpa using h)]
      rw [ih]
      rfl

/-- C3 counterexample: with no usable translations and a non-empty base-locale
field value, the claim's four-step chain resolves to the base value, but the
code resolves the image text to the empty string — the code has no
base-locale fallback (source comment: "strict: no EN fallback"). -/
theorem c3_counterexample :
    productResolvedText [] (some "1") = "" ∧
    specFallbackWithBase [] (some "1") "Base alt" = "Base alt" ∧
    ("" : String) ≠ "Base alt" := by
  refine ⟨by decide, by decide, by decide⟩

/-- C3 (amended): the resolved image text follows a three-step translated-only
chain with no base-locale fallback, and products and collections are not
uniform: for a product image the code resolves to the last usable exact-image
translation, else the last usable wildcard translation, else the first usable
translated title, else empty; for a collection image the exact and wildcard
translations are pooled and the last matching entry wins (a later wildcard
overrides an earlier exact match), then translated title, else empty. -/
theorem c3_translation_fallback (trs : List Translation) (imgIdNum : Option String) :
    productResolvedText trs imgIdNum = specProductFallback trs imgIdNum ∧
    collectionResolvedText trs imgIdNum = specCollectionFallback trs imgIdNum := by
  constructor
  · show jsOr (jsOr (imgAltSpecific (buildImageAltMapFromTranslations trs) imgIdNum)
        (jsOr ((buildImageAltMapFromTranslations trs "*").getD "") ""))
        (jsOr (extractTranslatedValue trs "title") "") = _
    rw [jsOr_chain3, buildAltMap_wildcard, extractTranslatedValue_eq_firstTitle]
    simp only [specProductFallback]
    cases imgIdNum with
    | none => simp [imgAltSpecific]
    | some i =>
      by_cases hi : i = ""
      · simp [imgAltSpecific, hi]
      · by_cases hstar : i = "*"
        · subst hstar
          simp only [imgAltSpecific, if_neg hi, buildAltMap_wildcard,
            lastUsableExact_star]
          by_cases hW : lastUsableWildcard trs = "" <;> simp [hW]
        · simp [imgAltSpecific, hi, buildAltMap_exact trs i hstar]
  · show jsOr (collectionImageAltTr trs imgIdNum)
        (jsOr (extractTranslatedValue trs "title") "") = _
    rw [jsOr_chain2, collectionAlt_lookup, extractTranslatedValue_eq_firstTitle]
    simp only [specCollectionFallback]

/-! ### XML escaping (claim C9) -/

theorem mem_replaceChar (c : Char) (rep : List Char) (a : Char) :
    ∀ l : List Char, a ∈ replaceChar c rep l ↔ ((a ∈ l ∧ a ≠ c) ∨ (a ∈ rep ∧ c ∈ l)) := by
  intro l
  induction l with
  | nil => simp [replaceChar]
  | cons b bs ih =>
    simp only [replaceChar, List.mem_append, ih, List.mem_cons]
    by_cases hbc : b = c
    · subst hbc
      simp only [if_pos rfl]
      by_cases hac : a = b
      · subst hac
        simp
        tauto
      · simp [hac]
        tauto
    · rw [if_neg hbc]
      simp only [List.mem_singleton]
      by_cases hac : a = c
      · subst hac
        simp [Ne.symm hbc]
      · simp [hac]
        tauto

/-- C9 counterexample: the escaping function does not replace the quote or
apostrophe characters — `x` leaves them in the output verbatim, so the output
does contain XML-significant quote characters unescaped. -/
theorem c9_counterexample :
    x "a\"b" = "a\"b" ∧
    x "a\"b" ≠ "a&quot;b" ∧
    ('"' ∈ (x "a\"b").data) ∧
    apostrophe ∈ (x (String.mk ['c', apostrophe])).data := by
  refine ⟨by decide, by decide, by decide, by decide⟩

/-- C9 (amended): `x` escapes exactly the three characters `&`, `<`, `>`
(ampersand first, so entity text is not re-escaped): the escaped output
contains no raw `<` and no raw `>`, while the quote and apostrophe characters
pass through exactly as often as they occur in the input. -/
theorem c9_escaping_three_chars (s : String) :
    ('<' ∉ (x s).data) ∧ ('>' ∉ (x s).data) ∧
    ('"' ∈ (x s).data ↔ '"' ∈ s.data) ∧
    (apostrophe ∈ (x s).data ↔ apostrophe ∈ s.data) := by
  refine ⟨?_, ?_, ?_, ?_⟩
  · simp +decide [x, mem_replaceChar]
  · simp +decide [x, mem_replaceChar]
  · simp +decide [x, mem_replaceChar]
  · simp +decide [x, mem_replaceChar, apostrophe]

/-! ### preferHostImageUrl identity outside its rewrite domain (claim C10) -/

/-- C10: `preferHostImageUrl` returns its input unchanged whenever the URL
fails to parse, or its hostname is not `cdn.shopify.com`, or its path
contains neither `/products/` nor `/files/`; and whenever it returns anything
else, the input parsed to a `cdn.shopify.com` URL whose path contains one of
those segments and the result is the rewritten
`https://{host}/cdn/shop...` URL. -/
theorem c10_preferHostImageUrl_identity (parseURL : String → Option URLParts)
    (url host : String) :
    (parseURL url = none → preferHostImageUrl parseURL url host = url) ∧
    (∀ u, parseURL url = some u → u.hostname ≠ "cdn.shopify.com" →
      preferHostImageUrl parseURL url host = url) ∧
    (∀ u, parseURL url = some u → jsIndexOf u.pathname "/products/" = none →
      jsIndexOf u.pathname "/files/" = none →
      preferHostImageUrl parseURL url host = url) ∧
    (preferHostImageUrl parseURL url host ≠ url →
      ∃ u i, parseURL url = some u ∧ u.hostname = "cdn.shopify.com" ∧
        (jsIndexOf u.pathname "/products/" = some i ∨
          (jsIndexOf u.pathname "/products/" = none ∧
            jsIndexOf u.pathname "/files/" = some i)) ∧
        preferHostImageUrl parseURL url host =
          "https://" ++ host ++ "/cdn/shop" ++ String.mk (u.pathname.data.drop i) ++
            u.search) := by
  refine ⟨?_, ?_, ?_, ?_⟩
  · intro h
    simp [preferHostImageUrl, h]
  · intro u hu hh
    simp [preferHostImageUrl, hu, hh]
  · intro u hu h1 h2
    by_cases hcdn : u.hostname = "cdn.shopify.com"
    · simp [preferHostImageUrl, hu, hcdn, h1, h2]
    · simp [preferHostImageUrl, hu, hcdn]
  · intro hne
    cases hp : parseURL url with
    | none => exact absurd (by simp [preferHostImageUrl, hp]) hne
    | some u =>
      by_cases hcdn : u.hostname = "cdn.shopify.com"
      · cases h1 : jsIndexOf u.pathname "/products/" with
        | some i =>
          exact ⟨u, i, rfl, hcdn, Or.inl h1, by simp [preferHostImageUrl, hp, hcdn, h1]⟩
        | none =>
          cases h2 : jsIndexOf u.pathname "/files/" with
          | some i =>
            exact ⟨u, i, rfl, hcdn, Or.inr ⟨h1, h2⟩,
              by simp [preferHostImageUrl, hp, hcdn, h1, h2]⟩
          | none => exact absurd (by simp [preferHostImageUrl, hp, hcdn, h1, h2]) hne
      · exact absurd (by simp [preferHostImageUrl, hp, hcdn]) hne

/-- Witness for C10: a non-CDN URL and an unparsable string come back
unchanged, a CDN product URL is rewritten onto the storefront host. -/
theorem c10_preferHostImageUrl_identity_witness :
    preferHostImageUrl (fun _ => some ⟨"images.example.com", "/pic.png", ""⟩)
      "https://images.example.com/pic.png" "shop.example" =
      "https://images.example.com/pic.png" ∧
    preferHostImageUrl (fun _ => none) "::notaurl::" "shop.example" = "::notaurl::" ∧
    preferHostImageUrl
      (fun _ => some ⟨"cdn.shopify.com", "/s/files/1/2/products/a.jpg", "?v=1"⟩)
      "https://cdn.shopify.com/s/files/1/2/products/a.jpg?v=1" "shop.example" =
      "https://shop.example/cdn/shop/products/a.jpg?v=1" := by
  refine ⟨?_, ?_, by decide⟩
  · exact (c10_preferHostImageUrl_identity
      (fun _ => some ⟨"images.example.com", "/pic.png", ""⟩)
      "https://images.example.com/pic.png" "shop.example").2.1 _ rfl (by decide)
  · exact (c10_preferHostImageUrl_identity (fun _ => none) "::notaurl::" "shop.example").1 rfl

/-! ### Translation lookup failure is non-fatal and local (claim C5) -/

theorem jsMapOfPairs_lookup (g : String → List Translation) :
    ∀ (keys : List String) (m : String → Option (List Translation)) (q : String),
      ((keys.map (fun k => (k, g k))).foldl
        (fun m kv => fun q => if q = kv.1 then some kv.2 else m q) m) q =
        if q ∈ keys then some (g q) else m q := by
  intro keys
  induction keys with
  | nil => intro m q; simp
  | cons k ks ih =>
    intro m q
    simp only [List.map_cons, List.foldl_cons]
    rw [ih]
    by_cases hks : q ∈ ks
    · simp [hks]
    · by_cases hk : q = k
      · subst hk
        simp [hks]
      · simp [hks, hk]

theorem foldl_skip_eq_filterMap {β γ : Type} (c : β → Prop) [DecidablePred c] (f : β → γ) :
    ∀ (l : List β) (acc : List γ),
      l.foldl (fun nodes p => if c p then nodes else nodes ++ [f p]) acc =
        acc ++ (l.filter (fun p => ¬ c p)).map f := by
  intro l
  induction l with
  | nil => intro acc; simp
  | cons p ps ih =>
    intro acc
    simp only [List.foldl_cons]
    by_cases hc : c p
    · rw [if_pos hc, ih, List.filter_cons]
      simp [hc]
    · rw [if_neg hc, ih, List.filter_cons]
      simp [hc]

theorem renderProductsSection_pointwise (parseURL : String → Option URLParts)
    (host : String) (ph ic : Bool) (products : List Product)
    (tr : String → Option (List Translation)) :
    renderProductsSection parseURL host ph ic products tr =
      (products.filter (fun p => ¬ p.images.length = 0)).map
        (fun p => renderProductNode parseURL host ph ic p
          ((fetchTrsForId tr (numericIdFromGid p.id)).getD [])) := by
  simp only [renderProductsSection]
  rw [foldl_skip_eq_filterMap (fun p : Product => p.images.length = 0)]
  rw [List.nil_append]
  apply List.map_congr_left
  intro p hp
  have hpin : p ∈ products := (List.mem_filter.mp hp).1
  have hid : p.id ∈ products.map (fun p => p.id) := List.mem_map_of_mem _ hpin
  have hpairs : ((products.map
      (fun p => (p.id, fetchTrsForId tr (numericIdFromGid p.id)))).map
        (fun r => (r.1, r.2.getD []))) =
      (products.map (fun p => p.id)).map
        (fun k => (k, (fetchTrsForId tr (numericIdFromGid k)).getD [])) := by
    simp only [List.map_map]
    rfl
  rw [hpairs]
  unfold jsMapOfPairs
  rw [jsMapOfPairs_lookup (fun k => (fetchTrsForId tr (numericIdFromGid k)).getD [])
    (products.map (fun p => p.id)) (fun _ => none) p.id]
  rw [if_pos hid]
  rfl

/-- C5: a failed translation lookup is non-fatal and local.  If the
translation oracle fails (returns `none`, the model of a non-success
response) for exactly one entity id, the rendered product section is still a
total list of nodes in which the affected entity is rendered with no override
(empty translation list, so the fallback chain applies) and every other
entity is rendered exactly as it would be with its own successful
translations. -/
theorem c5_translation_failure_local (parseURL : String → Option URLParts) (host : String)
    (ph ic : Bool) (products : List Product)
    (tr trF : String → Option (List Translation)) (i0 : String)
    (hfail : trF i0 = none) (hagree : ∀ j, j ≠ i0 → trF j = tr j) :
    renderProductsSection parseURL host ph ic products trF =
      (products.filter (fun p => ¬ p.images.length = 0)).map (fun p =>
        if numericIdFromGid p.id = some i0 then
          renderProductNode parseURL host ph ic p []
        else renderProductNode parseURL host ph ic p
          ((fetchTrsForId tr (numericIdFromGid p.id)).getD [])) := by
  rw [renderProductsSection_pointwise]
  apply List.map_congr_left
  intro p _
  by_cases h : numericIdFromGid p.id = some i0
  · rw [if_pos h, h]
    by_cases hi : i0 = ""
    · simp [fetchTrsForId, hi]
    · simp [fetchTrsForId, hi, hfail]
  · rw [if_neg h]
    cases hn : numericIdFromGid p.id with
    | none => simp [fetchTrsForId]
    | some j =>
      have hji : j ≠ i0 := fun hj => h (by rw [hn, hj])
      by_cases hj0 : j = ""
      · simp [fetchTrsForId, hj0]
      · simp [fetchTrsForId, hj0, hagree j hji]

/-- Witness for C5: in a 2-product slice whose first translation lookup
fails, the first product renders with no override and the second renders
with its successful translation; the request produces a full node list. -/
theorem c5_translation_failure_local_witness :
    renderProductsSection (fun _ => none) "shop.example" true true
      [⟨"gid://shopify/Product/1", "T1", "h1", "", "2024-01-01",
          [⟨"gid://shopify/ProductImage/11", "u1", ""⟩]⟩,
       ⟨"gid://shopify/Product/2", "T2", "h2", "", "2024-01-02",
          [⟨"gid://shopify/ProductImage/22", "u2", ""⟩]⟩]
      (fun j => if j = "1" then none
        else if j = "2" then some [⟨"title", "TT2"⟩] else none) =
      [renderProductNode (fun _ => none) "shop.example" true true
        ⟨"gid://shopify/Product/1", "T1", "h1", "", "2024-01-01",
          [⟨"gid://shopify/ProductImage/11", "u1", ""⟩]⟩ [],
       renderProductNode (fun _ => none) "shop.example" true true
        ⟨"gid://shopify/Product/2", "T2", "h2", "", "2024-01-02",
          [⟨"gid://shopify/ProductImage/22", "u2", ""⟩]⟩ [⟨"title", "TT2"⟩]] := by
  have h := c5_translation_failure_local (fun _ => none) "shop.example" true true
    [⟨"gid://shopify/Product/1", "T1", "h1", "", "2024-01-01",
        [⟨"gid://shopify/ProductImage/11", "u1", ""⟩]⟩,
     ⟨"gid://shopify/Product/2", "T2", "h2", "", "2024-01-02",
        [⟨"gid://shopify/ProductImage/22", "u2", ""⟩]⟩]
    (fun j => if j = "2" then some [⟨"title", "TT2"⟩] else none)
    (fun j => if j = "1" then none
      else if j = "2" then some [⟨"title", "TT2"⟩] else none)
    "1" (by decide) (by intro j hj; simp [hj])
  refine h.trans ?_
  set_option maxRecDepth 10000 in decide

/-! ### Cache key completeness (claim C6) -/

theorem cmp_ph_lo (xv yv : List Char) :
    charListLe ('p' :: 'r' :: 'e' :: 'f' :: 'e' :: 'r' :: 'H' :: 'o' :: 's' :: 't' :: '=' :: xv)
      ('l' :: 'o' :: 'c' :: 'a' :: 'l' :: 'e' :: '=' :: yv) = false := by
  simp [charListLe]

theorem cmp_t_lo (xv yv : List Char) :
    charListLe ('t' :: 'y' :: 'p' :: 'e' :: '=' :: xv)
      ('l' :: 'o' :: 'c' :: 'a' :: 'l' :: 'e' :: '=' :: yv) = false := by
  simp [charListLe]

theorem cmp_t_ph (xv yv : List Char) :
    charListLe ('t' :: 'y' :: 'p' :: 'e' :: '=' :: xv)
      ('p' :: 'r' :: 'e' :: 'f' :: 'e' :: 'r' :: 'H' :: 'o' :: 's' :: 't' :: '=' :: yv) = false := by
  simp [charListLe]

theorem cmp_pp_lo (xv yv : List Char) :
    charListLe ('p' :: 'e' :: 'r' :: 'P' :: 'a' :: 'g' :: 'e' :: '=' :: xv)
      ('l' :: 'o' :: 'c' :: 'a' :: 'l' :: 'e' :: '=' :: yv) = false := by
  simp [charListLe]

theorem cmp_pp_ph (xv yv : List Char) :
    charListLe ('p' :: 'e' :: 'r' :: 'P' :: 'a' :: 'g' :: 'e' :: '=' :: xv)
      ('p' :: 'r' :: 'e' :: 'f' :: 'e' :: 'r' :: 'H' :: 'o' :: 's' :: 't' :: '=' :: yv) = true := by
  simp [charListLe]

theorem cmp_pg_lo (xv yv : List Char) :
    charListLe ('p' :: 'a' :: 'g' :: 'e' :: '=' :: xv)
      ('l' :: 'o' :: 'c' :: 'a' :: 'l' :: 'e' :: '=' :: yv) = false := by
  simp [charListLe]

theorem cmp_pg_pp (xv yv : List Char) :
    charListLe ('p' :: 'a' :: 'g' :: 'e' :: '=' :: xv)
      ('p' :: 'e' :: 'r' :: 'P' :: 'a' :: 'g' :: 'e' :: '=' :: yv) = true := by
  simp [charListLe]

theorem cmp_h_lo (xv yv : List Char) :
    charListLe ('h' :: 'o' :: 's' :: 't' :: '=' :: xv)
      ('l' :: 'o' :: 'c' :: 'a' :: 'l' :: 'e' :: '=' :: yv) = true := by
  simp [charListLe]

theorem cmp_r_h (yv : List Char) :
    charListLe (['r', 'o', 'u', 't', 'e', '=', 'i', 'm', 'a', 'g', 'e', '.', 'x', 'm', 'l'])
      ('h' :: 'o' :: 's' :: 't' :: '=' :: yv) = false := by
  simp [charListLe]

theorem cmp_r_lo (yv : List Char) :
    charListLe (['r', 'o', 'u', 't', 'e', '=', 'i', 'm', 'a', 'g', 'e', '.', 'x', 'm', 'l'])
      ('l' :: 'o' :: 'c' :: 'a' :: 'l' :: 'e' :: '=' :: yv) = false := by
  simp [charListLe]

theorem cmp_r_pg (yv : List Char) :
    charListLe (['r', 'o', 'u', 't', 'e', '=', 'i', 'm', 'a', 'g', 'e', '.', 'x', 'm', 'l'])
      ('p' :: 'a' :: 'g' :: 'e' :: '=' :: yv) = false := by
  simp [charListLe]

theorem cmp_r_pp (yv : List Char) :
    charListLe (['r', 'o', 'u', 't', 'e', '=', 'i', 'm', 'a', 'g', 'e', '.', 'x', 'm', 'l'])
      ('p' :: 'e' :: 'r' :: 'P' :: 'a' :: 'g' :: 'e' :: '=' :: yv) = false := by
  simp [charListLe]

theorem cmp_r_ph (yv : List Char) :
    charListLe (['r', 'o', 'u', 't', 'e', '=', 'i', 'm', 'a', 'g', 'e', '.', 'x', 'm', 'l'])
      ('p' :: 'r' :: 'e' :: 'f' :: 'e' :: 'r' :: 'H' :: 'o' :: 's' :: 't' :: '=' :: yv) = false := by
  simp [charListLe]

theorem cmp_r_t (yv : List Char) :
    charListLe (['r', 'o', 'u', 't', 'e', '=', 'i', 'm', 'a', 'g', 'e', '.', 'x', 'm', 'l'])
      ('t' :: 'y' :: 'p' :: 'e' :: '=' :: yv) = true := by
  simp [charListLe]

theorem keySort_imageXml (host page pp ty phs lo : String) :
    keySort ["route" ++ "=" ++ "image.xml", "host" ++ "=" ++ host, "page" ++ "=" ++ page,
        "perPage" ++ "=" ++ pp, "type" ++ "=" ++ ty, "preferHost" ++ "=" ++ phs,
        "locale" ++ "=" ++ lo] =
      ["host" ++ "=" ++ host, "locale" ++ "=" ++ lo, "page" ++ "=" ++ page,
        "perPage" ++ "=" ++ pp, "preferHost" ++ "=" ++ phs, "route" ++ "=" ++ "image.xml",
        "type" ++ "=" ++ ty] := by
  simp [keySort, keyOrderedInsert, cmp_ph_lo, cmp_t_lo, cmp_t_ph, cmp_pp_lo, cmp_pp_ph,
    cmp_pg_lo, cmp_pg_pp, cmp_h_lo, cmp_r_h, cmp_r_lo, cmp_r_pg, cmp_r_pp, cmp_r_ph, cmp_r_t]

theorem imageXmlCacheKey_data (host page pp ty : String) (ph : Bool) (lo : String) :
    (imageXmlCacheKey host page pp ty ph lo).data =
      ("host=".data ++ host.data) ++ '|' ::
        (("locale=".data ++ lo.data) ++ '|' ::
          (("page=".data ++ page.data) ++ '|' ::
            (("perPage=".data ++ pp.data) ++ '|' ::
              (("preferHost=".data ++ (boolStr ph).data) ++ '|' ::
                ("route=image.xml".data ++ '|' :: ("type=".data ++ ty.data)))))) := by
  simp only [imageXmlCacheKey, cacheKey, List.map_cons, List.map_nil]
  rw [keySort_imageXml]
  simp only [joinBar, String.data_append, List.append_assoc]
  rfl

theorem barSegment_cancel :
    ∀ (a b r s : List Char), '|' ∉ a → '|' ∉ b →
      a ++ '|' :: r = b ++ '|' :: s → a = b ∧ r = s := by
  intro a
  induction a with
  | nil =>
    intro b r s _ hb heq
    cases b with
    | nil =>
      simp only [List.nil_append, List.cons.injEq] at heq
      exact ⟨rfl, heq.2⟩
    | cons d bs =>
      simp only [List.nil_append, List.cons_append, List.cons.injEq] at heq
      exact absurd (heq.1 ▸ List.mem_cons_self d bs) hb
  | cons c as ih =>
    intro b r s ha hb heq
    cases b with
    | nil =>
      simp only [List.cons_append, List.nil_append, List.cons.injEq] at heq
      exact absurd (heq.1 ▸ List.mem_cons_self c as) ha
    | cons d bs =>
      simp only [List.cons_append, List.cons.injEq] at heq
      obtain ⟨hcd, htail⟩ := heq
      have hrec := ih bs r s (fun hm => ha (List.mem_cons_of_mem _ hm))
        (fun hm => hb (List.mem_cons_of_mem _ hm)) htail
      exact ⟨by rw [hcd, hrec.1], hrec.2⟩

theorem segFree (lit : List Char) (v : String) (hl : '|' ∉ lit) (hv : barFree v) :
    '|' ∉ lit ++ v.data := fun hm => (List.mem_append.mp hm).elim hl hv

theorem boolStr_inj {a b : Bool} (h : (boolStr a).data = (boolStr b).data) : a = b := by
  cases a <;> cases b <;> first | rfl | (exact absurd h (by decide))

/-- C6 counterexample: two requests that differ in two output-affecting
parameters (host and locale) receive the same cache key, because the key
joins `k=v` entries with an unescaped `|` separator and a parameter value
containing `|...=` forges an entry boundary. -/
theorem c6_counterexample :
    imageXmlCacheKey "s" "1" "200" "all" true "x|locale=y" =
      imageXmlCacheKey "s|locale=x" "1" "200" "all" true "y" ∧
    ("s" : String) ≠ "s|locale=x" ∧ ("x|locale=y" : String) ≠ "y" := by
  refine ⟨by decide, by decide, by decide⟩

/-- C6 (amended): the `/image.xml` cache key is deterministic in the request
parameters, and provided no parameter value contains the `|` separator
character, it is injective: two requests agree on all keyed parameters
(host, page, per_page, type, prefer_host, locale) exactly when they receive
the same key.  Without the separator-free proviso the implication fails (see
the counterexample). -/
theorem c6_cache_key_completeness
    (host page perPage ty locale host2 page2 perPage2 ty2 locale2 : String)
    (ph ph2 : Bool)
    (hb1 : barFree host) (hb2 : barFree page) (hb3 : barFree perPage) (hb4 : barFree ty)
    (hb5 : barFree locale) (hc1 : barFree host2) (hc2 : barFree page2)
    (hc3 : barFree perPage2) (hc4 : barFree ty2) (hc5 : barFree locale2) :
    imageXmlCacheKey host page perPage ty ph locale =
        imageXmlCacheKey host2 page2 perPage2 ty2 ph2 locale2 ↔
      (host = host2 ∧ page = page2 ∧ perPage = perPage2 ∧ ty = ty2 ∧ ph = ph2 ∧
        locale = locale2) := by
  constructor
  · intro heq
    have hd := congrArg String.data heq
    rw [imageXmlCacheKey_data, imageXmlCacheKey_data] at hd
    have s1 := barSegment_cancel _ _ _ _
      (segFree _ _ (by decide) hb1) (segFree _ _ (by decide) hc1) hd
    have s2 := barSegment_cancel _ _ _ _
      (segFree _ _ (by decide) hb5) (segFree _ _ (by decide) hc5) s1.2
    have s3 := barSegment_cancel _ _ _ _
      (segFree _ _ (by decide) hb2) (segFree _ _ (by decide) hc2) s2.2
    have s4 := barSegment_cancel _ _ _ _
      (segFree _ _ (by decide) hb3) (segFree _ _ (by decide) hc3) s3.2
    have s5 := barSegment_cancel _ _ _ _
      (segFree _ _ (by decide) (show barFree (boolStr ph) from by cases ph <;> decide))
      (segFree _ _ (by decide) (show barFree (boolStr ph2) from by cases ph2 <;> decide)) s4.2
    have s6 := barSegment_cancel _ _ _ _ (by decide) (by decide) s5.2
    refine ⟨String.ext (List.append_cancel_left s1.1),
      String.ext (List.append_cancel_left s3.1),
      String.ext (List.append_cancel_left s4.1),
      String.ext (List.append_cancel_left s6.2),
      boolStr_inj (List.append_cancel_left s5.1),
      String.ext (List.append_cancel_left s2.1)⟩
  · rintro ⟨rfl, rfl, rfl, rfl, rfl, rfl⟩
    rfl

/-- Witness for C6: two concrete separator-free requests differing only in
`page` get different keys, and a request always maps to its own key. -/
theorem c6_cache_key_completeness_witness :
    imageXmlCacheKey "shop.example" "1" "200" "all" true "en" ≠
      imageXmlCacheKey "shop.example" "2" "200" "all" true "en" ∧
    imageXmlCacheKey "shop.example" "1" "200" "all" true "en" =
      imageXmlCacheKey "shop.example" "1" "200" "all" true "en" := by
  have h := c6_cache_key_completeness "shop.example" "1" "200" "all" "en"
    "shop.example" "2" "200" "all" "en" true true
    (by decide) (by decide) (by decide) (by decide) (by decide)
    (by decide) (by decide) (by decide) (by decide) (by decide)
  exact ⟨fun heq => absurd (h.mp heq).2.1 (by decide), rfl⟩

end SitemapProxy
